import Mathlib

/-!
Verification of the aggregation pipeline of `lets-git-the-metrics`
(src/main.rs), a tool that aggregates per-user language statistics and
star counts over GitHub repositories.

The Rust source is shallowly embedded:
* `f32` values are modelled as `ℚ` (the magnitudes involved are small
  integers and halves, so the idealisation is exact except where a
  division by zero occurs; those spots are flagged in comments, since
  Rust `f32` yields `NaN` there while `ℚ` yields `0`);
* `u32` values are modelled as `ℕ` (no claim touches overflow);
* `BTreeMap<String, _>` is modelled as an association list kept sorted
  by key, with `btInsert` mirroring `BTreeMap::insert` (replace on an
  existing key, otherwise insert at the ordered position);
* network fetches are oracles passed in as parameters: a fetch either
  fails at the transport layer (`reqwest` error, propagated by `?`) or
  yields a body whose `serde_json::from_str` outcome is an `Option`.
-/

namespace GitMetrics

/-- Struct `LOCData` from src/main.rs: one entry of the codetabs line-count
response. -/
structure LOCData where
  language : String
  lines_of_code : Nat
deriving DecidableEq, Repr

/-- Struct `ContributorData` from src/main.rs: one entry of the GitHub
contributors response. -/
structure ContributorData where
  login : String
  contributions : Nat
deriving DecidableEq, Repr

/-- Struct `RepoData` from src/main.rs: the fields of a repository object the
program deserialises. -/
structure RepoData where
  stargazers_count : Nat
  contributors_url : String
  full_name : String
deriving DecidableEq, Repr

/-- Struct `RepoInfo` from src/main.rs: the per-repository record produced by
`handle_repo`.  `language_loc_map` models `BTreeMap<String, u32>` as a
key-sorted association list; `ratio_of_commits_from_user` models the
`f32` ratio as a rational. -/
structure RepoInfo where
  language_loc_map : List (String × Nat)
  ratio_of_commits_from_user : ℚ
  stars : Nat
deriving DecidableEq, Repr

/-- Rust `char::to_ascii_lowercase`: map `A`-`Z` to `a`-`z`, leave every
other character unchanged. -/
def lowerChar (c : Char) : Char :=
  if 'A' ≤ c ∧ c ≤ 'Z' then Char.ofNat (c.toNat + 32) else c

/-- Rust `str::to_ascii_lowercase` applied characterwise. -/
def toAsciiLowercase (s : String) : String :=
  ⟨s.data.map lowerChar⟩

/-- Lookup in an association list, modelling `BTreeMap::get`. -/
def alGet (k : String) : List (String × α) → Option α
  | [] => none
  | (k', v) :: t => if k = k' then some v else alGet k t

/-- Lookup with a default value. -/
def alGetD (d : α) (k : String) (m : List (String × α)) : α :=
  (alGet k m).getD d

/-- `BTreeMap::insert` on the key-sorted association-list model:
replace the value at an existing key, otherwise insert at the position
given by the key order. -/
def btInsert (k : String) (v : α) : List (String × α) → List (String × α)
  | [] => [(k, v)]
  | (k', v') :: t =>
    if k < k' then (k, v) :: (k', v') :: t
    else if k = k' then (k, v) :: t
    else (k', v') :: btInsert k v t

/-- Outcome of one network fetch, as seen by the calling code after
`.send().await` / `.text().await` and `serde_json::from_str`:
`transportErr` is a `reqwest` error (DNS/TLS/connection failure),
propagated by `?` in the source; `body p` is a received HTTP response
(of any status code) whose deserialisation outcome is `p` — `none`
when `serde_json::from_str` fails, e.g. on a non-2xx error body. -/
inductive FetchResult (α : Type) where
  | transportErr
  | body (parsed : Option α)
deriving DecidableEq

/-- Function `GitHub::from_args` (src/main.rs lines 34-38): the exclusion list
is the argument list mapped through `to_ascii_lowercase`. -/
def mkExcludedLangs (raw : List String) : List String :=
  raw.map toAsciiLowercase

/-- The value clap gives `Args.excluded_langs` when `--excluded-langs`
is absent from the command line: the attribute `default_value = ""` on
a `Vec<String>` field yields a vector containing the single empty
string, not an empty vector. -/
def defaultExcludedLangs : List String := [""]

/-- Value `total_contributions` in `handle_repo` (src/main.rs lines
108-111): the sum of all contributors' contribution counts. -/
def total_contributions (contributors : List ContributorData) : Nat :=
  (contributors.map (·.contributions)).sum

/-- The `find` in `handle_repo` (src/main.rs lines 112-116): the first
contributor whose login equals the queried user, ASCII
case-insensitively. -/
def findUserContributor (user : String) (contributors : List ContributorData) :
    Option ContributorData :=
  contributors.find? (fun c => toAsciiLowercase c.login == toAsciiLowercase user)

/-- The filter predicate of src/main.rs lines 138-143: keep a language
entry unless it is the synthetic `"Total"` entry (exact match) or its
ASCII-lowercased name occurs in the (already lowercased) exclusion
list. -/
def keepLang (excluded : List String) (d : LOCData) : Bool :=
  d.language != "Total" && !(excluded.contains (toAsciiLowercase d.language))

/-- Value `language_loc_map` in `handle_repo` (src/main.rs lines 136-145):
the filtered language entries collected into a `BTreeMap`, so a later
entry with the same name overwrites an earlier one. -/
def language_loc_map (excluded : List String) (langs : List LOCData) :
    List (String × Nat) :=
  (langs.filter (keepLang excluded)).foldl
    (fun m d => btInsert d.language d.lines_of_code m) []

/-- Function `handle_repo` (src/main.rs lines 98-155).  The two fetches are
passed as oracles.  A transport error on either fetch is propagated by
`?` (`Except.error`); a parse failure yields `Ok(None)` (a skip); a
missing user likewise yields `Ok(None)`.  Note that when
`total_contributions` is zero and the user is present, the ratio is
computed anyway: in Rust `0.0 / 0.0` is `NaN` (here, by the `ℚ`
convention, `0`), and a record is still produced. -/
def handle_repo (user : String) (excluded : List String) (repo : RepoData)
    (contribFetch : FetchResult (List ContributorData))
    (langFetch : FetchResult (List LOCData)) :
    Except Unit (Option RepoInfo) :=
  match contribFetch with
  | .transportErr => .error ()
  | .body none => .ok none
  | .body (some contributors) =>
    match findUserContributor user contributors with
    | none => .ok none
    | some user_contributor =>
      let ratio_of_contributions : ℚ :=
        (user_contributor.contributions : ℚ) /
          (total_contributions contributors : ℚ)
      match langFetch with
      | .transportErr => .error ()
      | .body none => .ok none
      | .body (some langs) =>
        .ok (some { language_loc_map := language_loc_map excluded langs
                    ratio_of_commits_from_user := ratio_of_contributions
                    stars := repo.stargazers_count })

/-- The per-repository loop of `main` (src/main.rs lines 167-173):
each repository is paired with its two fetch outcomes; a `handle_repo`
error is propagated by `?` and aborts the loop, a `None` is skipped
with `continue`, and a `Some` is pushed onto `repos_info`. -/
def processRepos (user : String) (excluded : List String) :
    List (RepoData × FetchResult (List ContributorData) × FetchResult (List LOCData)) →
    Except Unit (List RepoInfo)
  | [] => .ok []
  | (repo, cf, lf) :: rest =>
    match handle_repo user excluded repo cf lf with
    | .error e => .error e
    | .ok none => processRepos user excluded rest
    | .ok (some info) => (processRepos user excluded rest).map (info :: ·)

/-- Struct `UserData` from src/main.rs. -/
structure UserData where
  organizations_url : String
  repos_url : String
deriving DecidableEq

/-- Struct `OrgData` from src/main.rs. -/
structure OrgData where
  repos_url : String
deriving DecidableEq

/-- Function `collect_repos` (src/main.rs lines 64-90) with its fetches passed
as oracles (profile, own repositories, organization list, then one
fetch per organization).  A transport error is propagated by `?`; a
parse failure hits `serde_json::from_str(..).unwrap()`, which panics —
both abort the run, so both are modelled as `Except.error`. -/
def collect_repos (profileFetch : FetchResult UserData)
    (ownReposFetch : FetchResult (List RepoData))
    (orgsFetch : FetchResult (List OrgData))
    (orgRepoFetches : List (FetchResult (List RepoData))) :
    Except Unit (List RepoData) :=
  match profileFetch with
  | .transportErr => .error ()
  | .body none => .error ()
  | .body (some _) =>
    match ownReposFetch with
    | .transportErr => .error ()
    | .body none => .error ()
    | .body (some repos) =>
      match orgsFetch with
      | .transportErr => .error ()
      | .body none => .error ()
      | .body (some _) =>
        orgRepoFetches.foldl
          (fun acc f =>
            match acc, f with
            | .error e, _ => .error e
            | .ok _, .transportErr => .error ()
            | .ok _, .body none => .error ()
            | .ok rs, .body (some more) => .ok (rs ++ more))
          (.ok repos)

/-- The weighting applied to one magnitude in the aggregation loop
(src/main.rs lines 179-183): `val as f32 * ratio` in weighted mode,
plain `val as f32` otherwise. -/
def weightedVal (weighted : Bool) (ratio : ℚ) (v : Nat) : ℚ :=
  if weighted then (v : ℚ) * ratio else (v : ℚ)

/-- The inner aggregation step of src/main.rs lines 178-190: fold one
record's language map into the running `langs_map`, adding the
(possibly weighted) value onto the existing total when the language is
already present. -/
def addLangs (weighted : Bool) (m : List (String × ℚ)) (info : RepoInfo) :
    List (String × ℚ) :=
  info.language_loc_map.foldl
    (fun m p =>
      let val := weightedVal weighted info.ratio_of_commits_from_user p.2
      match alGet p.1 m with
      | some old => btInsert p.1 (old + val) m
      | none => btInsert p.1 val m)
    m

/-- Value `langs_map` (src/main.rs lines 176-191): the per-language running
totals over all records. -/
def langs_map (weighted : Bool) (records : List RepoInfo) :
    List (String × ℚ) :=
  records.foldl (addLangs weighted) []

/-- Value `sum_of_components` (src/main.rs line 194): the sum of all
language totals. -/
def sum_of_components (weighted : Bool) (records : List RepoInfo) : ℚ :=
  ((langs_map weighted records).map Prod.snd).sum

/-- Value `percent_map` (src/main.rs lines 195-199): each language total
divided by the sum of all totals, times 100.  When the sum is zero the
Rust division yields `NaN` (`0.0 / 0.0`) or `inf`; in the `ℚ` model it
yields `0`.  The keys are exactly those of `langs_map`. -/
def percent_map (weighted : Bool) (records : List RepoInfo) :
    List (String × ℚ) :=
  (langs_map weighted records).map
    (fun p => (p.1, p.2 / sum_of_components weighted records * 100))

/-- The sort key of src/main.rs line 204: `(v * 1000.0) as u32`, i.e.
truncation toward zero with saturation at `0` and `u32::MAX`. -/
def sortKey (v : ℚ) : Nat :=
  (min (max ⌊v * 1000⌋ 0) (2 ^ 32 - 1)).toNat

/-- Value `percents_sorted` (src/main.rs lines 203-205): a stable ascending
sort by `sortKey`, then reversed, giving a descending presentation
order. -/
def percents_sorted (weighted : Bool) (records : List RepoInfo) :
    List (String × ℚ) :=
  (List.insertionSort (fun a b => sortKey a.2 ≤ sortKey b.2)
    (percent_map weighted records)).reverse

/-- Value `total_stars` (src/main.rs lines 211-221): each record's star
count, multiplied by its contribution ratio in weighted mode, summed
over all records. -/
def total_stars (weighted : Bool) (records : List RepoInfo) : ℚ :=
  (records.map
    (fun info =>
      (info.stars : ℚ) *
        if weighted then info.ratio_of_commits_from_user else 1)).sum

/-- The two-record scenario of spec §8: R1 has 100 lines of Go, user
ratio 1/2, 10 stars; R2 has 100 lines of Go and 100 of Rust, user
ratio 1, 5 stars. -/
def scenarioRecords : List RepoInfo :=
  [ { language_loc_map := [("Go", 100)]
      ratio_of_commits_from_user := 1 / 2
      stars := 10 },
    { language_loc_map := [("Go", 100), ("Rust", 100)]
      ratio_of_commits_from_user := 1
      stars := 5 } ]

/-- Spec-side definition (§4.4 step 1): the total for one language is
the sum, over all records, of the magnitudes recorded for that
language, each multiplied by the record's contribution ratio exactly
when `weighted` is set. -/
def langTotalSpec (weighted : Bool) (records : List RepoInfo)
    (lang : String) : ℚ :=
  (records.map
    (fun r =>
      ((r.language_loc_map.filter (fun p => p.1 == lang)).map
        (fun p =>
          if weighted then (p.2 : ℚ) * r.ratio_of_commits_from_user
          else (p.2 : ℚ))).sum)).sum

/-! ### Association-list lemmas -/

theorem alGet_nil (k : String) : alGet k ([] : List (String × α)) = none := rfl

theorem alGetD_nil (d : α) (k : String) : alGetD d k [] = d := rfl

theorem alGet_btInsert_self (k : String) (v : α) (m : List (String × α)) :
    alGet k (btInsert k v m) = some v := by
  induction m with
  | nil => simp [btInsert, alGet]
  | cons p t ih =>
    obtain ⟨k', v'⟩ := p
    by_cases hlt : k < k'
    · simp [btInsert, hlt, alGet]
    · by_cases heq : k = k'
      · simp [btInsert, hlt, heq, alGet]
      · simp [btInsert, hlt, heq, alGet, ih]

theorem alGet_btInsert_ne {k k' : String} (hne : k ≠ k') (v : α)
    (m : List (String × α)) :
    alGet k (btInsert k' v m) = alGet k m := by
  induction m with
  | nil => simp [btInsert, alGet, hne]
  | cons p t ih =>
    obtain ⟨k'', v''⟩ := p
    by_cases hlt : k' < k''
    · simp [btInsert, hlt, alGet, hne]
    · by_cases heq : k' = k''
      · subst heq
        simp [btInsert, hlt, alGet, hne]
      · simp [btInsert, hlt, heq, alGet, ih]

theorem alGet_eq_none_iff (k : String) (m : List (String × α)) :
    alGet k m = none ↔ ∀ p ∈ m, p.1 ≠ k := by
  induction m with
  | nil => simp [alGet]
  | cons p t ih =>
    obtain ⟨k', v'⟩ := p
    by_cases h : k = k' <;> simp [alGet, h, ih, Ne.symm, eq_comm]

/-! ### The aggregation fold computes per-language sums -/

theorem alGetD_addLangs (w : Bool) (lang : String) (r : RepoInfo)
    (m : List (String × ℚ)) :
    alGetD 0 lang (addLangs w m r) =
      alGetD 0 lang m +
        ((r.language_loc_map.filter (fun p => p.1 == lang)).map
          (fun p => weightedVal w r.ratio_of_commits_from_user p.2)).sum := by
  rw [addLangs]
  generalize r.language_loc_map = pairs
  generalize r.ratio_of_commits_from_user = ratio
  induction pairs generalizing m with
  | nil => simp
  | cons p t ih =>
    rw [List.foldl_cons, List.filter_cons]
    by_cases hp : p.1 = lang
    · subst hp
      have hstep :
          alGetD 0 p.1
            (match alGet p.1 m with
             | some old => btInsert p.1 (old + weightedVal w ratio p.2) m
             | none => btInsert p.1 (weightedVal w ratio p.2) m) =
            alGetD 0 p.1 m + weightedVal w ratio p.2 := by
        cases hget : alGet p.1 m with
        | some old => simp [alGetD, hget, alGet_btInsert_self]
        | none => simp [alGetD, hget, alGet_btInsert_self]
      rw [ih, hstep]
      simp
      ring
    · have hstep :
          alGetD 0 lang
            (match alGet p.1 m with
             | some old => btInsert p.1 (old + weightedVal w ratio p.2) m
             | none => btInsert p.1 (weightedVal w ratio p.2) m) =
            alGetD 0 lang m := by
        cases hget : alGet p.1 m with
        | some old => simp [alGetD, alGet_btInsert_ne (Ne.symm hp)]
        | none => simp [alGetD, alGet_btInsert_ne (Ne.symm hp)]
      rw [ih, hstep]
      simp [hp]

theorem alGetD_langs_map_from (w : Bool) (lang : String)
    (records : List RepoInfo) (m : List (String × ℚ)) :
    alGetD 0 lang (records.foldl (addLangs w) m) =
      alGetD 0 lang m + langTotalSpec w records lang := by
  induction records generalizing m with
  | nil => simp [langTotalSpec]
  | cons r t ih =>
    rw [List.foldl_cons, ih, alGetD_addLangs]
    have : langTotalSpec w (r :: t) lang =
        ((r.language_loc_map.filter (fun p => p.1 == lang)).map
          (fun p => weightedVal w r.ratio_of_commits_from_user p.2)).sum +
          langTotalSpec w t lang := by
      simp [langTotalSpec, weightedVal]
    rw [this, add_assoc]

/-- The running total kept by the aggregation loop for each language is
exactly the spec-side per-language sum. -/
theorem alGetD_langs_map (w : Bool) (records : List RepoInfo) (lang : String) :
    alGetD 0 lang (langs_map w records) = langTotalSpec w records lang := by
  have := alGetD_langs_map_from w lang records []
  simpa [langs_map, alGetD_nil] using this

/-! ### Sorted keys and uniqueness (the `BTreeMap` invariant) -/

theorem btInsert_keys_mem {x k : String} (v : α) (m : List (String × α))
    (hx : x ∈ (btInsert k v m).map Prod.fst) :
    x = k ∨ x ∈ m.map Prod.fst := by
  induction m with
  | nil => simpa [btInsert] using hx
  | cons p t ih =>
    obtain ⟨k', v'⟩ := p
    by_cases hlt : k < k'
    · simp only [btInsert, if_pos hlt, List.map_cons, List.mem_cons] at hx ⊢
      tauto
    · by_cases heq : k = k'
      · simp only [btInsert, if_neg hlt, if_pos heq, List.map_cons,
          List.mem_cons] at hx ⊢
        tauto
      · simp only [btInsert, if_neg hlt, if_neg heq, List.map_cons,
          List.mem_cons] at hx ⊢
        rcases hx with h | h
        · tauto
        · rcases ih h with h' | h' <;> tauto

theorem btInsert_keys_sorted (k : String) (v : α) (m : List (String × α))
    (h : (m.map Prod.fst).Sorted (· < ·)) :
    ((btInsert k v m).map Prod.fst).Sorted (· < ·) := by
  induction m with
  | nil => simp [btInsert]
  | cons p t ih =>
    obtain ⟨k', v'⟩ := p
    simp only [List.map_cons, List.sorted_cons] at h
    obtain ⟨hk', ht⟩ := h
    by_cases hlt : k < k'
    · simp only [btInsert, if_pos hlt, List.map_cons, List.sorted_cons]
      refine ⟨?_, hk', ht⟩
      intro b hb
      rcases List.mem_cons.mp hb with rfl | hb
      · exact hlt
      · exact hlt.trans (hk' b hb)
    · by_cases heq : k = k'
      · subst heq
        have hrw : btInsert k v ((k, v') :: t) = (k, v) :: t := by
          simp [btInsert, hlt]
        rw [hrw]
        simp only [List.map_cons, List.sorted_cons]
        exact ⟨hk', ht⟩
      · simp only [btInsert, if_neg hlt, if_neg heq, List.map_cons,
          List.sorted_cons]
        refine ⟨?_, ih ht⟩
        intro b hb
        rcases btInsert_keys_mem v t hb with rfl | hb
        · rcases lt_trichotomy b k' with h | h | h
          · exact absurd h hlt
          · exact absurd h heq
          · exact h
        · exact hk' b hb

theorem language_loc_map_keys_sorted (excluded : List String)
    (langs : List LOCData) :
    ((language_loc_map excluded langs).map Prod.fst).Sorted (· < ·) := by
  rw [language_loc_map]
  generalize langs.filter (keepLang excluded) = l
  suffices h : ∀ (m : List (String × Nat)), (m.map Prod.fst).Sorted (· < ·) →
      ((l.foldl (fun m d => btInsert d.language d.lines_of_code m) m).map
        Prod.fst).Sorted (· < ·) by
    exact h [] (by simp)
  induction l with
  | nil => intro m hm; simpa using hm
  | cons d t ih =>
    intro m hm
    exact ih _ (btInsert_keys_sorted d.language d.lines_of_code m hm)

/-! ### Last entry wins when the data source repeats a language -/

theorem alGet_foldl_btInsert (name : String) (l : List LOCData)
    (m : List (String × Nat)) :
    alGet name (l.foldl (fun m d => btInsert d.language d.lines_of_code m) m) =
      match l.reverse.find? (fun d => d.language == name) with
      | some d => some d.lines_of_code
      | none => alGet name m := by
  induction l generalizing m with
  | nil => simp
  | cons d t ih =>
    rw [List.foldl_cons, ih, List.reverse_cons, List.find?_append]
    cases hf : t.reverse.find? (fun d => d.language == name) with
    | some e => simp [hf]
    | none =>
      by_cases h : d.language = name
      · subst h
        simp [hf, alGet_btInsert_self]
      · have hok : (d.language == name) = false := by
          simpa using h
        simp [hf, hok, alGet_btInsert_ne (fun he => h he.symm)]

/-! ### Percentages sum to 100 when the total is nonzero -/

theorem sum_percent_map (w : Bool) (records : List RepoInfo)
    (h : sum_of_components w records ≠ 0) :
    ((percent_map w records).map Prod.snd).sum = 100 := by
  have key : ∀ (l : List (String × ℚ)) (S : ℚ),
      ((l.map (fun p => (p.1, p.2 / S * 100))).map Prod.snd).sum =
        (l.map Prod.snd).sum / S * 100 := by
    intro l S
    induction l with
    | nil => simp
    | cons p t ih =>
      simp only [List.map_cons, List.sum_cons, ih]
      simp [add_div, add_mul]
  rw [percent_map, key]
  have hs : ((langs_map w records).map Prod.snd).sum =
      sum_of_components w records := rfl
  rw [hs, div_self h]
  norm_num

/-! ### The presentation sort -/

theorem percents_sorted_pairwise (w : Bool) (records : List RepoInfo) :
    (percents_sorted w records).Pairwise
      (fun a b => sortKey b.2 ≤ sortKey a.2) := by
  rw [percents_sorted]
  haveI ht : IsTotal (String × ℚ) (fun a b => sortKey a.2 ≤ sortKey b.2) :=
    ⟨fun a b => Nat.le_total _ _⟩
  haveI htr : IsTrans (String × ℚ) (fun a b => sortKey a.2 ≤ sortKey b.2) :=
    ⟨fun a b c hab hbc => le_trans hab hbc⟩
  exact List.pairwise_reverse.mpr (List.sorted_insertionSort _ _)

theorem sortKey_lt_sortKey {a b : ℚ} (hb0 : 0 ≤ b) (ha100 : a ≤ 100)
    (hgap : b + 1 / 1000 ≤ a) : sortKey b < sortKey a := by
  have hfb0 : (0 : ℤ) ≤ ⌊b * 1000⌋ := Int.floor_nonneg.mpr (by positivity)
  have hstep : ⌊b * 1000⌋ + 1 ≤ ⌊a * 1000⌋ := by
    rw [Int.le_floor]
    push_cast
    have hfl := Int.floor_le (b * 1000)
    linarith
  have hub : ⌊a * 1000⌋ ≤ 100000 := by
    have h1 : a * 1000 ≤ ((100000 : ℤ) : ℚ) := by push_cast; linarith
    have h2 := Int.floor_le_floor h1
    simpa using h2
  have hpow : (2 : ℤ) ^ 32 - 1 = 4294967295 := by norm_num
  rw [sortKey, sortKey, hpow]
  omega

/-! ### Claim theorems -/

/-- A record whose language map is empty (every language filtered out,
or the data source returned no languages). -/
def emptyLangRecord : RepoInfo :=
  { language_loc_map := [], ratio_of_commits_from_user := 1, stars := 10 }

/-- A record whose single language has magnitude zero. -/
def zeroMagnitudeRecord : RepoInfo :=
  { language_loc_map := [("Go", 0)], ratio_of_commits_from_user := 1, stars := 10 }

/-- C1: the analyzer does NOT skip a repository whose total
contribution count is zero.  With a contributor list consisting of the
queried user with zero contributions, `total_contributions` is `0`,
yet `handle_repo` still returns `Ok(Some(..))`: the ratio is computed
as `0.0 / 0.0`, which in Rust `f32` is `NaN` (so it also violates the
claimed `[0, 1]` bound).  The claim's skip contract is the documented
intent; the code is missing the zero-total guard. -/
theorem c1_zero_total_produces_record :
    total_contributions [{ login := "alice", contributions := 0 }] = 0 ∧
    handle_repo "alice" []
      { stargazers_count := 10, contributors_url := "u", full_name := "o/r" }
      (.body (some [{ login := "alice", contributions := 0 }]))
      (.body (some [{ language := "Go", lines_of_code := 100 }])) =
      .ok (some { language_loc_map := [("Go", 100)]
                  ratio_of_commits_from_user := 0
                  stars := 10 }) := by
  constructor
  · rfl
  · norm_num +decide [handle_repo, findUserContributor, total_contributions,
      language_loc_map, keepLang, btInsert, toAsciiLowercase, lowerChar]

/-- C2: the running total kept by the aggregator for each language is
the sum over records of the magnitude (times the record's contribution
ratio exactly when `weighted` is set); each percentage is the
language's total divided by the sum of all totals, times 100; and on
the two-record scenario the unweighted percentages are 200/3 % and
100/3 % (66.67 % and 33.33 % at two decimals) while the weighted
percentages are exactly 60 % and 40 %. -/
theorem c2_language_aggregation :
    (∀ (w : Bool) (records : List RepoInfo) (lang : String),
        alGetD 0 lang (langs_map w records) = langTotalSpec w records lang) ∧
    (∀ (w : Bool) (records : List RepoInfo),
        percent_map w records = (langs_map w records).map
          (fun p => (p.1, p.2 / sum_of_components w records * 100))) ∧
    percent_map false scenarioRecords = [("Go", 200 / 3), ("Rust", 100 / 3)] ∧
    percent_map true scenarioRecords = [("Go", 60), ("Rust", 40)] ∧
    round ((200 : ℚ) / 3 * 100) = 6667 ∧
    round ((100 : ℚ) / 3 * 100) = 3333 := by
  refine ⟨alGetD_langs_map, fun w records => rfl, ?_, ?_, ?_, ?_⟩
  · norm_num +decide [percent_map, sum_of_components, langs_map,
      scenarioRecords, addLangs, weightedVal, btInsert, alGet]
  · norm_num +decide [percent_map, sum_of_components, langs_map,
      scenarioRecords, addLangs, weightedVal, btInsert, alGet]
  · norm_num [round_eq]
  · norm_num [round_eq]

/-- C3: the reported total-star figure is the sum over records of the
star count times the record's contribution ratio in weighted mode, and
the plain sum of star counts otherwise; on the two-record scenario
this gives 15 unweighted and 10 weighted. -/
theorem c3_total_stars_formula :
    (∀ records : List RepoInfo,
        total_stars true records =
          (records.map
            (fun i => (i.stars : ℚ) * i.ratio_of_commits_from_user)).sum) ∧
    (∀ records : List RepoInfo,
        total_stars false records = (records.map (fun i => (i.stars : ℚ))).sum) ∧
    total_stars false scenarioRecords = 15 ∧
    total_stars true scenarioRecords = 10 := by
  refine ⟨fun records => by simp [total_stars],
    fun records => by simp [total_stars],
    by norm_num [total_stars, scenarioRecords],
    by norm_num [total_stars, scenarioRecords]⟩

/-- C4 (counterexample): a non-empty record set need not have
percentages summing to 100 — one record whose language map is empty
yields an empty percentage map, whose percentage sum is 0. -/
theorem c4_counterexample :
    ([emptyLangRecord] : List RepoInfo) ≠ [] ∧
    ((percent_map false [emptyLangRecord]).map Prod.snd).sum = 0 := by
  constructor
  · simp
  · norm_num [percent_map, langs_map, addLangs, emptyLangRecord,
      sum_of_components]

/-- C4 (amended): whenever the sum of all language totals is nonzero
the computed percentages sum to exactly 100 (in the rational model;
within floating-point tolerance in the implementation), and with no
records the aggregate is the empty mapping. -/
theorem c4_percent_sum (w : Bool) (records : List RepoInfo) :
    (sum_of_components w records ≠ 0 →
      ((percent_map w records).map Prod.snd).sum = 100) ∧
    percent_map w [] = [] :=
  ⟨sum_percent_map w records, rfl⟩

/-- C4 witness: the scenario records have a nonzero total (300), and
their percentages sum to 100. -/
theorem c4_witness :
    sum_of_components false scenarioRecords ≠ 0 ∧
    ((percent_map false scenarioRecords).map Prod.snd).sum = 100 := by
  have hS : sum_of_components false scenarioRecords = 300 := by
    norm_num +decide [sum_of_components, langs_map, scenarioRecords,
      addLangs, weightedVal, btInsert, alGet]
  exact ⟨by rw [hS]; norm_num,
    (c4_percent_sum false scenarioRecords).1 (by rw [hS]; norm_num)⟩

/-- C5 (counterexample): when all magnitudes are zero but a record
exists, the sum of language totals is 0 yet the aggregate is NOT the
empty mapping (the language keeps an entry, whose value the Rust code
computes as `0.0 / 0.0 = NaN`), and the total-star value is the
record's star count, not 0. -/
theorem c5_counterexample :
    sum_of_components false [zeroMagnitudeRecord] = 0 ∧
    percent_map false [zeroMagnitudeRecord] ≠ [] ∧
    total_stars false [zeroMagnitudeRecord] = 10 := by
  refine ⟨?_, ?_, ?_⟩
  · norm_num +decide [sum_of_components, langs_map, zeroMagnitudeRecord,
      addLangs, weightedVal, btInsert, alGet]
  · norm_num +decide [percent_map, sum_of_components, langs_map,
      zeroMagnitudeRecord, addLangs, weightedVal, btInsert, alGet]
  · norm_num [total_stars, zeroMagnitudeRecord]

/-- C5 (amended): with zero successfully analyzed repositories the
aggregate is the empty percentage mapping, the total-star value is 0,
and the sum of components is 0 (no division is performed on the empty
mapping, so no division-by-zero arises in this case). -/
theorem c5_empty_aggregate (w : Bool) :
    percent_map w [] = [] ∧ total_stars w [] = 0 ∧
    sum_of_components w [] = 0 :=
  ⟨rfl, rfl, rfl⟩

/-- C6: a language whose ASCII-lowercased name matches an entry of the
exclusion list (itself lowercased by `GitHub::from_args`), and the
synthetic `"Total"` entry, never appear in a produced language map,
and such a language contributes nothing to the aggregate totals. -/
theorem c6_exclusion_filter (raw : List String) (name : String)
    (hex : name = "Total" ∨
      ∃ e ∈ raw, toAsciiLowercase e = toAsciiLowercase name) :
    (∀ langs : List LOCData,
        alGet name (language_loc_map (mkExcludedLangs raw) langs) = none) ∧
    (∀ (w : Bool) (records : List RepoInfo),
        (∀ r ∈ records, ∃ langs : List LOCData,
          r.language_loc_map = language_loc_map (mkExcludedLangs raw) langs) →
        alGetD 0 name (langs_map w records) = 0) := by
  have hdrop : ∀ d : LOCData,
      keepLang (mkExcludedLangs raw) d = true → d.language ≠ name := by
    intro d hk hdn
    rw [keepLang, Bool.and_eq_true] at hk
    obtain ⟨hTot, hCon⟩ := hk
    rcases hex with rfl | ⟨e, he, hle⟩
    · rw [hdn] at hTot
      simp at hTot
    · have hmem : toAsciiLowercase d.language ∈ mkExcludedLangs raw := by
        rw [hdn, ← hle]
        exact List.mem_map.mpr ⟨e, he, rfl⟩
      have hcontains :
          (mkExcludedLangs raw).contains (toAsciiLowercase d.language) = true := by
        simpa using hmem
      rw [hcontains] at hCon
      simp at hCon
  have hnone : ∀ langs : List LOCData,
      alGet name (language_loc_map (mkExcludedLangs raw) langs) = none := by
    intro langs
    rw [language_loc_map, alGet_foldl_btInsert]
    have hfind : (langs.filter (keepLang (mkExcludedLangs raw))).reverse.find?
        (fun d => d.language == name) = none := by
      rw [List.find?_eq_none]
      intro d hd
      rw [List.mem_reverse, List.mem_filter] at hd
      simpa using hdrop d hd.2
    rw [hfind]
    rfl
  refine ⟨hnone, ?_⟩
  intro w records hrec
  rw [alGetD_langs_map, langTotalSpec]
  apply List.sum_eq_zero
  intro x hx
  rw [List.mem_map] at hx
  obtain ⟨r, hr, rfl⟩ := hx
  obtain ⟨langs, hmap⟩ := hrec r hr
  have hkeys : ∀ p ∈ r.language_loc_map, p.1 ≠ name := by
    rw [hmap]
    exact (alGet_eq_none_iff _ _).mp (hnone langs)
  have hfil : r.language_loc_map.filter (fun p => p.1 == name) = [] := by
    rw [List.filter_eq_nil_iff]
    intro p hp
    simpa using hkeys p hp
  rw [hfil]
  simp

/-- C6 witness: with exclusion argument `["Rust"]`, the language
`"rust"` (a case-insensitive match) is absent from the produced map. -/
theorem c6_witness :
    (∃ e ∈ (["Rust"] : List String),
        toAsciiLowercase e = toAsciiLowercase "rust") ∧
    alGet "rust" (language_loc_map (mkExcludedLangs ["Rust"])
      [{ language := "rust", lines_of_code := 55 }]) = none := by
  have hex : ("rust" : String) = "Total" ∨
      ∃ e ∈ (["Rust"] : List String),
        toAsciiLowercase e = toAsciiLowercase "rust" := by
    right
    exact ⟨"Rust", by simp, by norm_num +decide [toAsciiLowercase, lowerChar]⟩
  exact ⟨hex.resolve_left (by decide),
    (c6_exclusion_filter ["Rust"] "rust" hex).1 _⟩

/-- A repository whose contributor fetch will fail at the transport
layer. -/
def badRepo : RepoData :=
  { stargazers_count := 3, contributors_url := "u1", full_name := "o/bad" }

/-- A repository whose fetches succeed and whose contributor list
contains the queried user. -/
def goodRepo : RepoData :=
  { stargazers_count := 7, contributors_url := "u2", full_name := "o/good" }

/-- C7 (counterexample): a transport failure on one repository's
contributor fetch does NOT merely skip that repository — the `?` in
`handle_repo` propagates the `reqwest` error through the `?` in
`main`'s loop, aborting the whole run, even though a later repository
would have been analyzed successfully. -/
theorem c7_counterexample :
    processRepos "alice" []
      [(badRepo, .transportErr, .body (some [{ language := "Rust", lines_of_code := 5 }])),
       (goodRepo, .body (some [{ login := "alice", contributions := 3 }]),
         .body (some [{ language := "Rust", lines_of_code := 5 }]))] =
      .error () := by
  rfl

/-- C7 (amended): a PARSE failure on a repository's contributor or
language fetch causes only that repository to be skipped and the run
to continue, whereas a TRANSPORT failure on any fetch — the
per-repository contributor or language fetches included, as well as
the collection-stage profile fetch — aborts the run. -/
theorem c7_failure_policy :
    (∀ (user : String) (excl : List String) (repo : RepoData)
        (lf : FetchResult (List LOCData))
        (rest : List (RepoData × FetchResult (List ContributorData) ×
          FetchResult (List LOCData))),
        processRepos user excl ((repo, .body none, lf) :: rest) =
          processRepos user excl rest) ∧
    (∀ (user : String) (excl : List String) (repo : RepoData)
        (p : Option (List ContributorData))
        (rest : List (RepoData × FetchResult (List ContributorData) ×
          FetchResult (List LOCData))),
        processRepos user excl ((repo, .body p, .body none) :: rest) =
          processRepos user excl rest) ∧
    (∀ (user : String) (excl : List String) (repo : RepoData)
        (lf : FetchResult (List LOCData))
        (rest : List (RepoData × FetchResult (List ContributorData) ×
          FetchResult (List LOCData))),
        processRepos user excl ((repo, .transportErr, lf) :: rest) =
          .error ()) ∧
    (∀ (user : String) (excl : List String) (repo : RepoData) (c : Nat)
        (rest : List (RepoData × FetchResult (List ContributorData) ×
          FetchResult (List LOCData))),
        processRepos user excl
          ((repo, .body (some [{ login := user, contributions := c }]),
            .transportErr) :: rest) = .error ()) ∧
    (∀ (own : FetchResult (List RepoData)) (orgs : FetchResult (List OrgData))
        (orgFetches : List (FetchResult (List RepoData))),
        collect_repos .transportErr own orgs orgFetches = .error ()) := by
  refine ⟨?_, ?_, ?_, ?_, ?_⟩
  · intro user excl repo lf rest
    rfl
  · intro user excl repo p rest
    cases p with
    | none => rfl
    | some contributors =>
      rw [processRepos, handle_repo]
      cases findUserContributor user contributors <;> rfl
  · intro user excl repo lf rest
    rfl
  · intro user excl repo c rest
    rw [processRepos, handle_repo]
    have hfind : findUserContributor user
        [{ login := user, contributions := c }] =
        some { login := user, contributions := c } := by
      simp [findUserContributor, List.find?]
    rw [hfind]
  · intro own orgs orgFetches
    rfl

/-- C8: the presentation list is sorted by descending `sortKey`
(percentage truncated to millipercent, as in `(v * 1000.0) as u32`),
and for percentage values within the attainable `[0, 100]` range, two
entries whose percentages differ by at least one millipercent appear
in strictly descending order (the larger strictly earlier). -/
theorem c8_descending_order (w : Bool) (records : List RepoInfo) :
    (percents_sorted w records).Pairwise
      (fun a b => sortKey b.2 ≤ sortKey a.2) ∧
    ((∀ p ∈ percent_map w records, 0 ≤ p.2 ∧ p.2 ≤ 100) →
      ∀ i j : Fin (percents_sorted w records).length,
        ((percents_sorted w records).get j).2 + 1 / 1000 ≤
          ((percents_sorted w records).get i).2 →
        i < j) := by
  refine ⟨percents_sorted_pairwise w records, ?_⟩
  intro hb i j hgap
  by_contra hij
  push_neg at hij
  have hsub : ∀ x ∈ percents_sorted w records, x ∈ percent_map w records := by
    intro x hx
    rw [percents_sorted, List.mem_reverse] at hx
    exact ((List.perm_insertionSort _ _).mem_iff).mp hx
  have hpw := percents_sorted_pairwise w records
  rw [List.pairwise_iff_get] at hpw
  rcases lt_or_eq_of_le hij with hlt | heq
  · have hkey := hpw j i hlt
    have hbi := hb _ (hsub _ (List.get_mem _ _ i.isLt))
    have hbj := hb _ (hsub _ (List.get_mem _ _ j.isLt))
    have hstrict := sortKey_lt_sortKey hbj.1 hbi.2 hgap
    exact absurd hkey (not_le.mpr hstrict)
  · rw [heq] at hgap
    linarith

/-- C8 witness: on the unweighted scenario (Go at 200/3 %, Rust at
100/3 %), Go — index 0 of the presented list — strictly precedes
Rust — index 1. -/
theorem c8_witness :
    (⟨0, by norm_num +decide [percents_sorted, percent_map, sum_of_components,
        langs_map, scenarioRecords, addLangs, weightedVal, btInsert, alGet,
        List.insertionSort, List.orderedInsert, sortKey]⟩ :
      Fin (percents_sorted false scenarioRecords).length) <
      ⟨1, by norm_num +decide [percents_sorted, percent_map, sum_of_components,
        langs_map, scenarioRecords, addLangs, weightedVal, btInsert, alGet,
        List.insertionSort, List.orderedInsert, sortKey]⟩ :=
  (c8_descending_order false scenarioRecords).2
    (by norm_num +decide [percent_map, sum_of_components, langs_map,
      scenarioRecords, addLangs, weightedVal, btInsert, alGet])
    _ _
    (by norm_num +decide [percents_sorted, percent_map, sum_of_components,
      langs_map, scenarioRecords, addLangs, weightedVal, btInsert, alGet,
      List.insertionSort, List.orderedInsert, sortKey])

/-- C9 (counterexample): with `--excluded-langs` absent, the exclusion
list is NOT empty — clap's `default_value = ""` makes it `[""]` — and
a language entry whose name is the empty string IS filtered out on
account of it (the produced map is empty although the entry survives
the `"Total"` check). -/
theorem c9_counterexample :
    defaultExcludedLangs ≠ [] ∧
    keepLang (mkExcludedLangs defaultExcludedLangs)
      { language := "", lines_of_code := 7 } = false ∧
    language_loc_map (mkExcludedLangs defaultExcludedLangs)
      [{ language := "", lines_of_code := 7 }] = [] := by
  refine ⟨by simp [defaultExcludedLangs], ?_, ?_⟩
  · norm_num +decide [keepLang, mkExcludedLangs, defaultExcludedLangs,
      toAsciiLowercase, lowerChar]
  · norm_num +decide [language_loc_map, keepLang, mkExcludedLangs,
      defaultExcludedLangs, toAsciiLowercase, lowerChar]

/-- C9 (amended): the default exclusion list is the one-element list
`[""]`; consequently only a language whose name is the empty string
can be excluded by it — for every language with a non-empty name the
exclusion test fails and the filter reduces to the `"Total"` check
alone. -/
theorem c9_default_excluded (d : LOCData) (hd : d.language ≠ "") :
    defaultExcludedLangs = [""] ∧
    (mkExcludedLangs defaultExcludedLangs).contains
      (toAsciiLowercase d.language) = false ∧
    keepLang (mkExcludedLangs defaultExcludedLangs) d =
      (d.language != "Total") := by
  have hlower : toAsciiLowercase d.language ≠ "" := by
    intro h
    apply hd
    have hdata : d.language.data.map lowerChar = [] := congrArg String.data h
    rw [List.map_eq_nil_iff] at hdata
    exact String.ext hdata
  have hexc : mkExcludedLangs defaultExcludedLangs = [""] := rfl
  have hcontains : (mkExcludedLangs defaultExcludedLangs).contains
      (toAsciiLowercase d.language) = false := by
    rw [hexc]
    simpa using hlower
  refine ⟨rfl, hcontains, ?_⟩
  rw [keepLang, hcontains]
  simp

/-- C9 witness: a Go entry is unaffected by the default exclusion
list. -/
theorem c9_witness :
    (({ language := "Go", lines_of_code := 1 } : LOCData).language ≠ "") ∧
    (mkExcludedLangs defaultExcludedLangs).contains
      (toAsciiLowercase ({ language := "Go", lines_of_code := 1 } :
        LOCData).language) = false :=
  ⟨by decide,
    (c9_default_excluded { language := "Go", lines_of_code := 1 }
      (by decide)).2.1⟩

/-- C10: the produced language map has no duplicate keys, the value
stored for a name is the magnitude of the LAST surviving entry with
that name in source order (`find?` on the reversed filtered list), and
concretely two entries named `"Go"` with magnitudes 5 then 9 collapse
to the single entry `("Go", 9)`. -/
theorem c10_last_entry_wins :
    (∀ (excluded : List String) (langs : List LOCData),
        ((language_loc_map excluded langs).map Prod.fst).Nodup) ∧
    (∀ (excluded : List String) (langs : List LOCData) (name : String),
        alGet name (language_loc_map excluded langs) =
          ((langs.filter (keepLang excluded)).reverse.find?
            (fun d => d.language == name)).map (·.lines_of_code)) ∧
    language_loc_map []
      [{ language := "Go", lines_of_code := 5 },
       { language := "Go", lines_of_code := 9 }] = [("Go", 9)] := by
  refine ⟨?_, ?_, ?_⟩
  · intro excluded langs
    exact (language_loc_map_keys_sorted excluded langs).nodup
  · intro excluded langs name
    rw [language_loc_map, alGet_foldl_btInsert]
    cases hf : (langs.filter (keepLang excluded)).reverse.find?
        (fun d => d.language == name) <;> simp [hf, alGet]
  · norm_num +decide [language_loc_map, keepLang, btInsert]

end GitMetrics
